import Mathlib

/-!
Shallow embedding of the numeral-annotation pipeline in
`src/mark_with_ai_and_position.py` (tables `new_num_sentences` and
`number_level_analysis`): numeral extraction, batching, the retrying
oracle client, and the reconciliation of oracle responses onto the
occurrence table.  Strings are modelled as lists of Unicode characters
(Python indexes `str` by code point, which matches Lean's `String.data`).
-/

namespace SRTP

/-- JSON values as produced by `json.loads` / returned by the oracle.
Numbers are modelled as integers (the oracle protocol only uses integer
`id` and `type` fields). -/
inductive Json where
  | null
  | bool (b : Bool)
  | int (n : Int)
  | str (s : String)
  | arr (xs : List Json)
  | obj (kvs : List (String × Json))

/-- Python `dict.get(k)` on a JSON object: the value at the first binding
of key `k`, if any (parsed JSON dicts have unique keys). -/
def dictGet (kvs : List (String × Json)) (k : String) : Option Json :=
  (kvs.find? (fun p => p.1 = k)).map Prod.snd

/-- Python `int(x)` applied to a JSON-derived value (`none` = the call
raises): integers pass through, booleans coerce (`int(True) = 1`),
integer-literal strings parse; `None`/`null`, lists and dicts raise. -/
def pyInt : Option Json → Option Int
  | some (Json.int n) => some n
  | some (Json.bool b) => some (if b then 1 else 0)
  | some (Json.str s) => s.toInt?
  | _ => none

/-- The `num_type` computation of `process_all`
(src/mark_with_ai_and_position.py:320-326):
`try: num_type = int(item.get("type")); if num_type not in (0,1,2):
num_type = -1; except: num_type = -1`. -/
def decodeType (kvs : List (String × Json)) : Int :=
  match pyInt (dictGet kvs "type") with
  | some n => if n = 0 ∨ n = 1 ∨ n = 2 then n else -1
  | none => -1

/-- A row of the `number_level_analysis` table
(src/mark_with_ai_and_position.py:104-114).  `number_type = none` models
SQL `NULL` (unlabeled). -/
structure OccRow where
  id : Int
  source_id : Int
  sentence : String
  number_text : String
  number_start : Nat
  number_end : Nat
  number_type : Option Int
deriving Repr, DecidableEq

/-- Embeds `UPDATE number_level_analysis SET number_type=%s WHERE id=%s`
(src/mark_with_ai_and_position.py:295-298, 329-332). -/
def updateLabel (t : List OccRow) (rid : Int) (v : Int) : List OccRow :=
  t.map (fun r => if r.id = rid then { r with number_type := some v } else r)

/-- The batching step of `process_all` (src/mark_with_ai_and_position.py:277):
`batches = [rows[i:i + BATCH_SIZE] for i in range(0, len(rows), BATCH_SIZE)]`.
For `n = 0` Python's `range` raises; the model returns `[]` there and all
results below assume `1 ≤ n`. -/
def makeBatches : List α → Nat → List (List α)
  | [], _ => []
  | x :: xs, n =>
    if n = 0 then []
    else (x :: xs).take n :: makeBatches ((x :: xs).drop n) n
termination_by l _ => l.length
decreasing_by
  simp only [List.length_drop, List.length_cons]
  omega

theorem makeBatches_nil (n : Nat) : makeBatches ([] : List α) n = [] := by
  simp [makeBatches]

theorem makeBatches_cons (x : α) (xs : List α) (n : Nat) (hn : n ≠ 0) :
    makeBatches (x :: xs) n =
      (x :: xs).take n :: makeBatches ((x :: xs).drop n) n := by
  rw [makeBatches]
  simp [hn]

theorem flatten_makeBatches_aux (m : Nat) :
    ∀ (xs : List α), xs.length ≤ m → ∀ n, 1 ≤ n →
      (makeBatches xs n).flatten = xs := by
  induction m with
  | zero =>
    intro xs hxs n hn
    have : xs = [] := List.length_eq_zero.mp (by omega)
    subst this
    simp [makeBatches_nil]
  | succ m ih =>
    intro xs hxs n hn
    cases xs with
    | nil => simp [makeBatches_nil]
    | cons x tl =>
      rw [makeBatches_cons x tl n (by omega)]
      rw [List.flatten_cons]
      rw [ih ((x :: tl).drop n) (by simp [List.length_drop] at hxs ⊢; omega) n hn]
      exact List.take_append_drop n (x :: tl)

theorem flatten_makeBatches (xs : List α) (n : Nat) (hn : 1 ≤ n) :
    (makeBatches xs n).flatten = xs :=
  flatten_makeBatches_aux xs.length xs (Nat.le_refl _) n hn

theorem makeBatches_dropLast_length_aux (m : Nat) :
    ∀ (xs : List α), xs.length ≤ m → ∀ n, 1 ≤ n →
      ∀ b ∈ (makeBatches xs n).dropLast, b.length = n := by
  induction m with
  | zero =>
    intro xs hxs n hn
    have : xs = [] := List.length_eq_zero.mp (by omega)
    subst this
    simp [makeBatches_nil]
  | succ m ih =>
    intro xs hxs n hn
    cases xs with
    | nil => simp [makeBatches_nil]
    | cons x tl =>
      rw [makeBatches_cons x tl n (by omega)]
      intro b hb
      cases hrest : makeBatches ((x :: tl).drop n) n with
      | nil => simp [hrest] at hb
      | cons y ys =>
        rw [hrest] at hb
        rw [List.dropLast_cons₂] at hb
        rcases List.mem_cons.mp hb with h1 | h2
        · -- the head slice is full: the drop was non-empty, so the input
          -- had more than `n` elements and `take n` keeps exactly `n`
          subst h1
          have hne : (x :: tl).drop n ≠ [] := by
            intro hemp
            rw [hemp, makeBatches_nil] at hrest
            exact List.noConfusion hrest
          have : n < (x :: tl).length := by
            by_contra hcon
            exact hne (List.drop_eq_nil_of_le (by omega))
          simp only [List.length_take, List.length_cons] at this ⊢
          omega
        · have := ih ((x :: tl).drop n)
            (by simp [List.length_drop] at hxs ⊢; omega) n hn
          rw [hrest] at this
          exact this b h2

/-- C5: the batching comprehension partitions its input: the
concatenation of the batches is the input (hence the batches are
contiguous, non-overlapping slices in original order), and every batch
except possibly the last has exactly `n` elements. -/
theorem batching_partitions (xs : List α) (n : Nat) (hxs : xs ≠ []) (hn : 1 ≤ n) :
    (makeBatches xs n).flatten = xs ∧
    ∀ b ∈ (makeBatches xs n).dropLast, b.length = n :=
  ⟨flatten_makeBatches xs n hn, makeBatches_dropLast_length_aux xs.length xs
    (Nat.le_refl _) n hn⟩

/-- Witness for `batching_partitions` at `xs = [1,2,3]`, `n = 2`. -/
theorem batching_partitions_witness :
    ([1, 2, 3] : List Nat) ≠ [] ∧ 1 ≤ 2 ∧
    ((makeBatches [1, 2, 3] 2).flatten = [1, 2, 3] ∧
      ∀ b ∈ (makeBatches ([1, 2, 3] : List Nat) 2).dropLast, b.length = 2) := by
  refine ⟨by decide, by decide, ?_⟩
  exact batching_partitions [1, 2, 3] 2 (by decide) (by decide)

theorem dropWhile_length_le (p : α → Bool) (l : List α) :
    (l.dropWhile p).length ≤ l.length := by
  induction l with
  | nil => simp
  | cons x xs ih =>
    rw [List.dropWhile_cons]
    by_cases h : p x = true
    · simp only [h, if_true]
      exact Nat.le_succ_of_le ih
    · simp [h]

theorem head_dropWhile_false (p : α → Bool) (l : List α) :
    ∀ c, (l.dropWhile p).head? = some c → p c = false := by
  induction l with
  | nil => intro c hc; simp at hc
  | cons x xs ih =>
    intro c hc
    rw [List.dropWhile_cons] at hc
    by_cases h : p x = true
    · rw [if_pos h] at hc
      exact ih c hc
    · rw [if_neg h, List.head?_cons] at hc
      injection hc with hc
      subst hc
      exact Bool.of_not_eq_true h

theorem takeWhile_dropWhile_length (p : α → Bool) (l : List α) :
    (l.takeWhile p).length + (l.dropWhile p).length = l.length := by
  induction l with
  | nil => simp
  | cons x xs ih =>
    rw [List.takeWhile_cons, List.dropWhile_cons]
    by_cases h : p x = true
    · rw [if_pos h, if_pos h]
      simp only [List.length_cons]
      omega
    · rw [if_neg h, if_neg h]
      simp only [List.length_nil, List.length_cons]
      omega

/-- The character class of `r'[零一二三四五六七八九十百千万亿]+'`
(src/mark_with_ai_and_position.py:54). -/
def isChineseNumeral (c : Char) : Bool :=
  c ∈ ['零', '一', '二', '三', '四', '五', '六', '七', '八', '九',
       '十', '百', '千', '万', '亿']

/-- One regex match of `extract_chinese_numbers`: the matched substring
together with its half-open span `[start, stop)` (the dict
`{'text': …, 'start': …, 'end': …}` built at
src/mark_with_ai_and_position.py:57-61). -/
structure NumMatch where
  text : List Char
  start : Nat
  stop : Nat
deriving Repr, DecidableEq

/-- The `re.finditer` scanning for `extract_chinese_numbers`: at each
position, if the character is a numeral glyph, emit the greedy longest
run starting there and resume right after it; otherwise advance one
character. -/
def extractAux : List Char → Nat → List NumMatch
  | [], _ => []
  | c :: rest, pos =>
    if isChineseNumeral c then
      { text := c :: rest.takeWhile isChineseNumeral, start := pos,
        stop := pos + (c :: rest.takeWhile isChineseNumeral).length } ::
        extractAux (rest.dropWhile isChineseNumeral)
          (pos + (c :: rest.takeWhile isChineseNumeral).length)
    else
      extractAux rest (pos + 1)
termination_by l _ => l.length
decreasing_by
  · simp only [List.length_cons]
    exact Nat.lt_succ_of_le (dropWhile_length_le _ _)
  · simp only [List.length_cons]
    omega

/-- Embeds `extract_chinese_numbers` (src/mark_with_ai_and_position.py:48-62):
all matches of `r'[零一二三四五六七八九十百千万亿]+'` with positions. -/
def extract_chinese_numbers (text : String) : List NumMatch :=
  extractAux text.data 0

theorem extractAux_nil (pos : Nat) : extractAux [] pos = [] := by
  simp [extractAux]

theorem extractAux_cons_pos (c : Char) (rest : List Char) (pos : Nat)
    (h : isChineseNumeral c = true) :
    extractAux (c :: rest) pos =
      { text := c :: rest.takeWhile isChineseNumeral, start := pos,
        stop := pos + (c :: rest.takeWhile isChineseNumeral).length } ::
        extractAux (rest.dropWhile isChineseNumeral)
          (pos + (c :: rest.takeWhile isChineseNumeral).length) := by
  rw [extractAux]
  simp [h]

theorem extractAux_cons_neg (c : Char) (rest : List Char) (pos : Nat)
    (h : isChineseNumeral c = false) :
    extractAux (c :: rest) pos = extractAux rest (pos + 1) := by
  rw [extractAux]
  simp [h]

theorem extractAux_spec_aux (m : Nat) :
    ∀ (l : List Char), l.length ≤ m → ∀ pos, ∀ mt ∈ extractAux l pos,
      pos ≤ mt.start ∧ mt.start < mt.stop ∧ mt.stop ≤ pos + l.length ∧
      (l.drop (mt.start - pos)).take (mt.stop - mt.start) = mt.text ∧
      mt.text ≠ [] ∧ (∀ ch ∈ mt.text, isChineseNumeral ch = true) ∧
      (∀ ch, (l.drop (mt.stop - pos)).head? = some ch →
        isChineseNumeral ch = false) := by
  induction m with
  | zero =>
    intro l hl pos mt hmt
    have : l = [] := List.length_eq_zero.mp (by omega)
    subst this
    rw [extractAux_nil] at hmt
    exact absurd hmt (List.not_mem_nil mt)
  | succ m ih =>
    intro l hl pos mt hmt
    cases l with
    | nil =>
      rw [extractAux_nil] at hmt
      exact absurd hmt (List.not_mem_nil mt)
    | cons c rest =>
      by_cases hc : isChineseNumeral c = true
      · rw [extractAux_cons_pos c rest pos hc] at hmt
        -- the scanned prefix: run = c :: takeWhile, remainder dw
        have hsplit : c :: rest =
            (c :: rest.takeWhile isChineseNumeral) ++
              rest.dropWhile isChineseNumeral := by
          simp [List.takeWhile_append_dropWhile]
        rcases List.mem_cons.mp hmt with h1 | h2
        · subst h1
          simp only
          refine ⟨Nat.le_refl _, by simp, ?_, ?_, ?_, ?_, ?_⟩
          · have h1 := takeWhile_dropWhile_length isChineseNumeral rest
            simp only [List.length_cons]
            omega
          · have harith : pos + (c :: rest.takeWhile isChineseNumeral).length
                - pos = (c :: rest.takeWhile isChineseNumeral).length := by omega
            rw [Nat.sub_self, harith, List.drop_zero]
            conv_lhs => rw [hsplit]
            exact List.take_left _ _
          · simp
          · intro ch hch
            rcases List.mem_cons.mp hch with h | h
            · subst h; exact hc
            · exact List.mem_takeWhile_imp h
          · intro ch hch
            have harith : pos + (c :: rest.takeWhile isChineseNumeral).length
                - pos = (c :: rest.takeWhile isChineseNumeral).length := by omega
            rw [harith] at hch
            conv at hch => rw [hsplit]
            rw [show ((c :: rest.takeWhile isChineseNumeral).length) =
              ((c :: rest.takeWhile isChineseNumeral).length + 0) from by omega] at hch
            rw [List.drop_append] at hch
            rw [List.drop_zero] at hch
            exact head_dropWhile_false isChineseNumeral rest ch hch
        · have hdw : (rest.dropWhile isChineseNumeral).length ≤ m := by
            have := dropWhile_length_le isChineseNumeral rest
            simp only [List.length_cons] at hl
            omega
          have := ih (rest.dropWhile isChineseNumeral) hdw
            (pos + (c :: rest.takeWhile isChineseNumeral).length) mt h2
          obtain ⟨hstart, hlt, hstop, htext, hne, hall, hmax⟩ := this
          refine ⟨by omega, hlt, ?_, ?_, hne, hall, ?_⟩
          · have h1 := takeWhile_dropWhile_length isChineseNumeral rest
            simp only [List.length_cons] at hstop ⊢
            omega
          · have harith : mt.start - pos =
                (c :: rest.takeWhile isChineseNumeral).length +
                  (mt.start -
                    (pos + (c :: rest.takeWhile isChineseNumeral).length)) := by
              omega
            rw [harith]
            conv_lhs => rw [hsplit]
            rw [List.drop_append]
            exact htext
          · intro ch hch
            have harith : mt.stop - pos =
                (c :: rest.takeWhile isChineseNumeral).length +
                  (mt.stop -
                    (pos + (c :: rest.takeWhile isChineseNumeral).length)) := by
              omega
            rw [harith] at hch
            conv at hch => rw [hsplit]
            rw [List.drop_append] at hch
            exact hmax ch hch
      · have hc' : isChineseNumeral c = false := Bool.of_not_eq_true hc
        rw [extractAux_cons_neg c rest pos hc'] at hmt
        have := ih rest (by simp only [List.length_cons] at hl; omega)
          (pos + 1) mt hmt
        obtain ⟨hstart, hlt, hstop, htext, hne, hall, hmax⟩ := this
        refine ⟨by omega, hlt, by simp only [List.length_cons]; omega, ?_, hne,
          hall, ?_⟩
        · have harith : mt.start - pos = (mt.start - (pos + 1)) + 1 := by omega
          rw [harith, List.drop_succ_cons]
          exact htext
        · intro ch hch
          have harith : mt.stop - pos = (mt.stop - (pos + 1)) + 1 := by omega
          rw [harith, List.drop_succ_cons] at hch
          exact hmax ch hch

theorem extractAux_chain_aux (m : Nat) :
    ∀ (l : List Char), l.length ≤ m → ∀ pos,
      List.Chain' (fun a b => a.stop ≤ b.start) (extractAux l pos) := by
  induction m with
  | zero =>
    intro l hl pos
    have : l = [] := List.length_eq_zero.mp (by omega)
    subst this
    rw [extractAux_nil]
    exact List.chain'_nil
  | succ m ih =>
    intro l hl pos
    cases l with
    | nil => rw [extractAux_nil]; exact List.chain'_nil
    | cons c rest =>
      by_cases hc : isChineseNumeral c = true
      · rw [extractAux_cons_pos c rest pos hc]
        have hdw : (rest.dropWhile isChineseNumeral).length ≤ m := by
          have := dropWhile_length_le isChineseNumeral rest
          simp only [List.length_cons] at hl
          omega
        refine List.chain'_cons'.mpr ⟨?_, ih _ hdw _⟩
        intro y hy
        have hmem := List.mem_of_mem_head? hy
        have := extractAux_spec_aux m _ hdw
          (pos + (c :: rest.takeWhile isChineseNumeral).length) y hmem
        exact this.1
      · have hc' : isChineseNumeral c = false := Bool.of_not_eq_true hc
        rw [extractAux_cons_neg c rest pos hc']
        exact ih rest (by simp only [List.length_cons] at hl; omega) (pos + 1)

/-- C8: numeral extraction is total (a Lean function) and, on every
input, every match has a valid half-open span `0 ≤ start < stop ≤
length` whose slice of the input is exactly the matched text, the text
is a non-empty run of numeral glyphs that is greedily maximal to the
right (the character right after the match, if any, is not a numeral
glyph), matches are in left-to-right non-overlapping order, and the
sentence `"三楼住着一百人"` yields exactly `三 @ [0,1)` and `一百 @ [4,6)`. -/
theorem extractor_spec (text : String) :
    (∀ mt ∈ extract_chinese_numbers text,
      mt.start < mt.stop ∧ mt.stop ≤ text.data.length ∧
      (text.data.drop mt.start).take (mt.stop - mt.start) = mt.text ∧
      mt.text ≠ [] ∧ (∀ ch ∈ mt.text, isChineseNumeral ch = true) ∧
      (∀ ch, (text.data.drop mt.stop).head? = some ch →
        isChineseNumeral ch = false)) ∧
    List.Chain' (fun a b => a.stop ≤ b.start) (extract_chinese_numbers text) ∧
    extract_chinese_numbers "三楼住着一百人" =
      [⟨['三'], 0, 1⟩, ⟨['一', '百'], 4, 6⟩] := by
  refine ⟨?_, ?_, ?_⟩
  · intro mt hmt
    have := extractAux_spec_aux text.data.length text.data (Nat.le_refl _) 0
      mt hmt
    obtain ⟨_, hlt, hstop, htext, hne, hall, hmax⟩ := this
    simp only [Nat.sub_zero, Nat.zero_add] at hstop htext hmax
    exact ⟨hlt, hstop, htext, hne, hall, hmax⟩
  · exact extractAux_chain_aux text.data.length text.data (Nat.le_refl _) 0
  · show extractAux ("三楼住着一百人").data 0 = _
    rw [show ("三楼住着一百人").data = ['三', '楼', '住', '着', '一', '百', '人']
      from rfl]
    rw [extractAux_cons_pos _ _ _ (by decide)]
    rw [show List.takeWhile isChineseNumeral ['楼', '住', '着', '一', '百', '人']
      = [] from by decide]
    rw [show List.dropWhile isChineseNumeral ['楼', '住', '着', '一', '百', '人']
      = ['楼', '住', '着', '一', '百', '人'] from by decide]
    rw [extractAux_cons_neg _ _ _ (by decide)]
    rw [extractAux_cons_neg _ _ _ (by decide)]
    rw [extractAux_cons_neg _ _ _ (by decide)]
    rw [extractAux_cons_pos _ _ _ (by decide)]
    rw [show List.takeWhile isChineseNumeral ['百', '人'] = ['百'] from by decide]
    rw [show List.dropWhile isChineseNumeral ['百', '人'] = ['人'] from by decide]
    rw [extractAux_cons_neg _ _ _ (by decide)]
    rw [extractAux_nil]
    decide

/-- Witness for `extractor_spec` at the spec's example sentence. -/
theorem extractor_spec_witness :
    extract_chinese_numbers "三楼住着一百人" =
      [⟨['三'], 0, 1⟩, ⟨['一', '百'], 4, 6⟩] :=
  (extractor_spec "三楼住着一百人").2.2

/-- The retry loop of `call_gemini_json`
(src/mark_with_ai_and_position.py:82-96).  `oracle i` is what attempt `i`
does: `Except.ok v` when the HTTP round trip, status check and JSON
parse produce the value `v`, `Except.error e` when any of them raises
`e`.  The loop keeps `last_err` and re-raises it after the last failed
attempt; the result pairs the outcome with the number of attempts
performed.  `Except.error none` models the degenerate `raise None` when
`retry = 0`. -/
def callLoop (oracle : Nat → Except String Json) :
    Nat → Nat → Option String → Except (Option String) Json × Nat
  | 0, _, last => (Except.error last, 0)
  | fuel + 1, i, _ =>
    match oracle i with
    | Except.ok v => (Except.ok v, 1)
    | Except.error e =>
      let r := callLoop oracle fuel (i + 1) (some e)
      (r.1, r.2 + 1)

/-- Embeds `call_gemini_json(prompt, retry=MODEL_RETRIES)`
(src/mark_with_ai_and_position.py:67-96): run the retry loop from
attempt 0 with no previous error. -/
def call_gemini_json (oracle : Nat → Except String Json) (retry : Nat) :
    Except (Option String) Json × Nat :=
  callLoop oracle retry 0 none

theorem callLoop_count_le (oracle : Nat → Except String Json) (fuel : Nat) :
    ∀ i last, (callLoop oracle fuel i last).2 ≤ fuel := by
  induction fuel with
  | zero => intro i last; simp [callLoop]
  | succ fuel ih =>
    intro i last
    simp only [callLoop]
    cases oracle i with
    | ok v => simp
    | error e =>
      simp only
      exact Nat.succ_le_succ (ih (i + 1) (some e))

theorem callLoop_success (oracle : Nat → Except String Json) (fuel : Nat) :
    ∀ i last k v, k < fuel →
      (∀ j, j < k → ∃ e, oracle (i + j) = Except.error e) →
      oracle (i + k) = Except.ok v →
      callLoop oracle fuel i last = (Except.ok v, k + 1) := by
  induction fuel with
  | zero => intro i last k v hk; omega
  | succ fuel ih =>
    intro i last k v hk hfail hok
    cases k with
    | zero =>
      rw [callLoop]
      rw [show i + 0 = i from rfl] at hok
      rw [hok]
    | succ k =>
      obtain ⟨e, he⟩ := hfail 0 (Nat.succ_pos k)
      rw [callLoop]
      rw [show i + 0 = i from rfl] at he
      rw [he]
      simp only
      rw [ih (i + 1) (some e) k v (by omega)
        (fun j hj => by
          obtain ⟨e', he'⟩ := hfail (j + 1) (by omega)
          exact ⟨e', by rw [show i + 1 + j = i + (j + 1) from by omega]; exact he'⟩)
        (by rw [show i + 1 + k = i + (k + 1) from by omega]; exact hok)]

theorem callLoop_all_fail (oracle : Nat → Except String Json)
    (e : Nat → String) (fuel : Nat) :
    ∀ i last, 1 ≤ fuel →
      (∀ j, j < fuel → oracle (i + j) = Except.error (e (i + j))) →
      callLoop oracle fuel i last =
        (Except.error (some (e (i + fuel - 1))), fuel) := by
  induction fuel with
  | zero => intro i last h; omega
  | succ fuel ih =>
    intro i last _ hfail
    have h0 := hfail 0 (Nat.succ_pos fuel)
    rw [show i + 0 = i from rfl] at h0
    rw [callLoop, h0]
    simp only
    cases Nat.eq_zero_or_pos fuel with
    | inl hz =>
      subst hz
      rw [callLoop]
      simp
    | inr hpos =>
      rw [ih (i + 1) (some (e i)) hpos
        (fun j hj => by
          rw [show i + 1 + j = i + (j + 1) from by omega]
          exact hfail (j + 1) (by omega))]
      have : i + 1 + fuel - 1 = i + (fuel + 1) - 1 := by omega
      rw [this]

/-- C4: the oracle client configured for `retry` attempts makes at most
`retry` calls; if the first success is at attempt `k < retry` it returns
that attempt's decoded result after exactly `k + 1` calls; if all
`retry ≥ 1` attempts fail it raises the last attempt's error after
exactly `retry` calls. -/
theorem retry_bound (oracle : Nat → Except String Json) (retry : Nat) :
    (call_gemini_json oracle retry).2 ≤ retry ∧
    (∀ k v, k < retry →
      (∀ j, j < k → ∃ e, oracle j = Except.error e) →
      oracle k = Except.ok v →
      call_gemini_json oracle retry = (Except.ok v, k + 1)) ∧
    (∀ e : Nat → String, 1 ≤ retry →
      (∀ j, j < retry → oracle j = Except.error (e j)) →
      call_gemini_json oracle retry =
        (Except.error (some (e (retry - 1))), retry)) := by
  refine ⟨callLoop_count_le oracle retry 0 none, ?_, ?_⟩
  · intro k v hk hfail hok
    exact callLoop_success oracle retry 0 none k v hk
      (fun j hj => by simpa using hfail j hj) (by simpa using hok)
  · intro e h1 hfail
    have := callLoop_all_fail oracle e retry 0 none h1
      (fun j hj => by simpa using hfail j hj)
    simpa using this

/-- A two-attempt-failing, third-attempt-succeeding oracle, used as a
concrete instance for the retry-bound theorem. -/
def oracleFlaky (i : Nat) : Except String Json :=
  if i < 2 then Except.error "connection error" else Except.ok Json.null

/-- An always-failing oracle, used as a concrete instance for the
retry-bound and whole-batch-failure theorems. -/
def oracleDown (_ : Nat) : Except String Json :=
  Except.error "connection error"

/-- Witness for `retry_bound`: with three attempts, two failures then a
success return the success after exactly three calls, and three
failures raise the last error after exactly three calls. -/
theorem retry_bound_witness :
    call_gemini_json oracleFlaky 3 = (Except.ok Json.null, 3) ∧
    call_gemini_json oracleDown 3 =
      (Except.error (some "connection error"), 3) := by
  constructor
  · exact (retry_bound oracleFlaky 3).2.1 2 Json.null (by omega)
      (fun j hj => ⟨"connection error", by
        rw [oracleFlaky, if_pos hj]⟩)
      (by rw [oracleFlaky]; rfl)
  · exact (retry_bound oracleDown 3).2.2 (fun _ => "connection error")
      (by omega) (fun j hj => rfl)

/-- Embeds `process_batch_api_task` (src/mark_with_ai_and_position.py:230-247):
call the oracle for the batch; any exception (including exhaustion of
all retries) is caught and reported as `none`, a parsed value as
`some`. -/
def process_batch_api_task (oracle : Nat → Except String Json) (retry : Nat)
    (batch : List OccRow) : List OccRow × Option Json :=
  match (call_gemini_json oracle retry).1 with
  | Except.ok v => (batch, some v)
  | Except.error _ => (batch, none)

/-- The whole-batch failure write of `process_all`
(src/mark_with_ai_and_position.py:293-301, 308-315): `UPDATE … SET
number_type=-1` for every id of the batch. -/
def markAllFailed (ids : List Int) (t : List OccRow) : List OccRow :=
  ids.foldl (fun acc i => updateLabel acc i (-1)) t

/-- One iteration of the result-application loop of `process_all`
(src/mark_with_ai_and_position.py:319-333): read `item.get("id")`,
decode `item.get("type")`, and update the row when the id belongs to
the batch's `id_map`.  A non-dict entry raises `AttributeError` at
`item.get` (modelled as `Except.error`), which propagates to the
top-level handler. -/
def applyItem (ids : List Int) (t : List OccRow) : Json → Except Unit (List OccRow)
  | Json.obj kvs =>
    match dictGet kvs "id" with
    | some (Json.int rid) =>
      if rid ∈ ids then Except.ok (updateLabel t rid (decodeType kvs))
      else Except.ok t
    | _ => Except.ok t
  | _ => Except.error ()

/-- The result-application loop of `process_all`
(src/mark_with_ai_and_position.py:318-333) over all entries of the
response's `results` list, in order. -/
def applyResults (ids : List Int) : List Json → List OccRow → Except Unit (List OccRow)
  | [], t => Except.ok t
  | item :: rest, t =>
    match applyItem ids t item with
    | Except.ok t2 => applyResults ids rest t2
    | Except.error e => Except.error e

/-- The per-batch branch of `process_all`'s result loop
(src/mark_with_ai_and_position.py:289-335): a `none` outcome (the API
task caught an exception) marks the whole batch `-1`; otherwise
`results = api_result.get("results", [])` (an `AttributeError` on a
non-dict response propagates to the top-level handler); a non-list
`results` marks the whole batch `-1`; a list is applied entry by
entry. -/
def processBatchUpdate (batch : List OccRow) (api : Option Json)
    (t : List OccRow) : Except Unit (List OccRow) :=
  match api with
  | none => Except.ok (markAllFailed (batch.map (fun r => r.id)) t)
  | some j =>
    match j with
    | Json.obj kvs =>
      match dictGet kvs "results" with
      | none => applyResults (batch.map (fun r => r.id)) [] t
      | some (Json.arr results) =>
        applyResults (batch.map (fun r => r.id)) results t
      | some _ => Except.ok (markAllFailed (batch.map (fun r => r.id)) t)
    | _ => Except.error ()

/-- The completion loop of `process_all` over all batches, in
completion order (src/mark_with_ai_and_position.py:283-338): each
successful batch update is committed; an uncaught exception reaches the
top-level handler (src/mark_with_ai_and_position.py:372-375), rolls
back the uncommitted batch and aborts the run, keeping the committed
state. -/
def runBatches : List OccRow → List (List OccRow × Option Json) → List OccRow
  | t, [] => t
  | t, (b, api) :: rest =>
    match processBatchUpdate b api t with
    | Except.ok t2 => runBatches t2 rest
    | Except.error _ => t

/-- Embeds `fetch_rows_to_label` (src/mark_with_ai_and_position.py:174-185):
`SELECT … WHERE number_type IS NULL ORDER BY id`. -/
def fetch_rows_to_label (t : List OccRow) : List OccRow :=
  (t.filter (fun r => r.number_type.isNone)).mergeSort
    (fun a b => decide (a.id ≤ b.id))

/-- Whether one result-list entry is an object whose `"id"` field is the
integer `i`; if so, its fields. -/
def entryMatches (i : Int) : Json → Option (List (String × Json))
  | Json.obj kvs =>
    match dictGet kvs "id" with
    | some (Json.int n) => if n = i then some kvs else none
    | _ => none
  | _ => none

/-- Modelled from the spec's reconciler contract ("for each record in
the batch, look up by id in the result list"), as the characterization
target for the loop that the code actually runs: the entry of the
result list that decides a record's final label is the last object
entry whose `"id"` field equals the record's id (each matching entry
overwrites the previous update). -/
def resultFor (i : Int) : List Json → Option (List (String × Json))
  | [] => none
  | item :: rest =>
    match resultFor i rest with
    | some kvs => some kvs
    | none => entryMatches i item

/-- The per-row effect of applying a parsed result list: a row of the
batch whose id has a deciding entry gets that entry's decoded type;
every other row — in particular a batch row whose id is absent from the
result list — is left unchanged. -/
def rowAfter (ids : List Int) (results : List Json) (r : OccRow) : OccRow :=
  if r.id ∈ ids then
    match resultFor r.id results with
    | some kvs => { r with number_type := some (decodeType kvs) }
    | none => r
  else r

theorem updateLabel_id (rid : Int) (v : Int) :
    ∀ r : OccRow,
      (if r.id = rid then { r with number_type := some v } else r).id = r.id := by
  intro r
  by_cases h : r.id = rid <;> simp [h]

theorem rowAfter_nil (ids : List Int) (r : OccRow) : rowAfter ids [] r = r := by
  by_cases h : r.id ∈ ids <;> simp [rowAfter, resultFor, h]

theorem resultFor_cons_some (i : Int) (item : Json) (rest : List Json)
    (kvs : List (String × Json)) (h : resultFor i rest = some kvs) :
    resultFor i (item :: rest) = some kvs := by
  simp only [resultFor, h]

theorem entryMatches_obj_hit (i : Int) (kvs : List (String × Json))
    (hid : dictGet kvs "id" = some (Json.int i)) :
    entryMatches i (Json.obj kvs) = some kvs := by
  simp only [entryMatches]
  rw [hid]
  simp

theorem entryMatches_none (i : Int) (item : Json)
    (h2 : ∀ kvs rid, item = Json.obj kvs →
      dictGet kvs "id" = some (Json.int rid) → rid ≠ i) :
    entryMatches i item = none := by
  cases item with
  | obj kvs =>
    simp only [entryMatches]
    cases hdg : dictGet kvs "id" with
    | none => rfl
    | some j =>
      cases j with
      | int n =>
        have hne := h2 kvs n rfl hdg
        simp [hne]
      | null => rfl
      | bool b => rfl
      | str s => rfl
      | arr xs => rfl
      | obj kvs2 => rfl
  | null => rfl
  | bool b => rfl
  | int n => rfl
  | str s => rfl
  | arr xs => rfl

theorem resultFor_cons_hit (i : Int) (kvs : List (String × Json))
    (rest : List Json) (h : resultFor i rest = none)
    (hid : dictGet kvs "id" = some (Json.int i)) :
    resultFor i (Json.obj kvs :: rest) = some kvs := by
  simp only [resultFor, h]
  exact entryMatches_obj_hit i kvs hid

theorem resultFor_cons_miss (i : Int) (item : Json) (rest : List Json)
    (h : resultFor i rest = none)
    (h2 : ∀ kvs rid, item = Json.obj kvs →
      dictGet kvs "id" = some (Json.int rid) → rid ≠ i) :
    resultFor i (item :: rest) = none := by
  simp only [resultFor, h]
  exact entryMatches_none i item h2

theorem markAllFailed_eq_map (ids : List Int) :
    ∀ t : List OccRow, markAllFailed ids t =
      t.map (fun r => if r.id ∈ ids then { r with number_type := some (-1) }
        else r) := by
  induction ids with
  | nil =>
    intro t
    simp only [markAllFailed, List.foldl_nil]
    have : ∀ r : OccRow,
        (if r.id ∈ ([] : List Int) then { r with number_type := some (-1) }
          else r) = r := by
      intro r; simp
    rw [List.map_congr_left (fun r _ => this r)]
    exact (List.map_id t).symm
  | cons i is ih =>
    intro t
    have step : markAllFailed (i :: is) t = markAllFailed is (updateLabel t i (-1)) := by
      simp [markAllFailed, List.foldl_cons]
    rw [step, ih (updateLabel t i (-1))]
    rw [updateLabel, List.map_map]
    apply List.map_congr_left
    intro r _
    simp only [Function.comp]
    by_cases h1 : r.id = i
    · by_cases h2 : r.id ∈ is <;>
        simp [h1, h2, List.mem_cons]
    · by_cases h2 : r.id ∈ is <;>
        simp [h1, h2, List.mem_cons]

theorem rowAfter_step (ids : List Int) (rest : List Json)
    (kvs : List (String × Json)) (rid : Int)
    (hid : dictGet kvs "id" = some (Json.int rid)) (hin : rid ∈ ids)
    (r : OccRow) :
    rowAfter ids rest
      (if r.id = rid then { r with number_type := some (decodeType kvs) }
        else r) =
    rowAfter ids (Json.obj kvs :: rest) r := by
  by_cases hmem : r.id ∈ ids
  · cases hres : resultFor r.id rest with
    | some k =>
      have hcons := resultFor_cons_some r.id (Json.obj kvs) rest k hres
      by_cases h : r.id = rid
      · subst h
        simp [rowAfter, hres, hcons, hmem]
      · simp [rowAfter, hres, hcons, hmem, h]
    | none =>
      by_cases h : r.id = rid
      · subst h
        have hcons := resultFor_cons_hit r.id kvs rest hres hid
        simp [rowAfter, hres, hcons, hmem]
      · have hcons : resultFor r.id (Json.obj kvs :: rest) = none := by
          apply resultFor_cons_miss r.id (Json.obj kvs) rest hres
          intro kvs2 rid2 heq hid2
          cases heq
          rw [hid] at hid2
          cases hid2
          exact fun hh => h hh.symm
        simp [rowAfter, hres, hcons, hmem, h]
  · have h : r.id ≠ rid := fun hh => hmem (hh ▸ hin)
    simp [rowAfter, hmem, h]

theorem rowAfter_cons_skip (ids : List Int) (rest : List Json)
    (kvs : List (String × Json))
    (h2 : ∀ rid, dictGet kvs "id" = some (Json.int rid) → rid ∉ ids)
    (r : OccRow) :
    rowAfter ids (Json.obj kvs :: rest) r = rowAfter ids rest r := by
  by_cases hmem : r.id ∈ ids
  · cases hres : resultFor r.id rest with
    | some k =>
      have hcons := resultFor_cons_some r.id (Json.obj kvs) rest k hres
      simp [rowAfter, hres, hcons, hmem]
    | none =>
      have hcons : resultFor r.id (Json.obj kvs :: rest) = none := by
        apply resultFor_cons_miss r.id (Json.obj kvs) rest hres
        intro kvs2 rid2 heq hid2
        cases heq
        intro hh
        exact h2 rid2 hid2 (hh ▸ hmem)
      simp [rowAfter, hres, hcons, hmem]
  · simp [rowAfter, hmem]

theorem applyResults_ok_eq (ids : List Int) :
    ∀ (results : List Json) (t t2 : List OccRow),
      applyResults ids results t = Except.ok t2 →
      t2 = t.map (rowAfter ids results) := by
  intro results
  induction results with
  | nil =>
    intro t t2 h
    simp only [applyResults] at h
    cases h
    have heq : List.map (rowAfter ids []) t = List.map id t :=
      List.map_congr_left (fun r _ => rowAfter_nil ids r)
    rw [heq, List.map_id]
  | cons item rest ih =>
    intro t t2 h
    cases item with
    | obj kvs =>
      simp only [applyResults, applyItem] at h
      cases hdg : dictGet kvs "id" with
      | some j =>
        cases j with
        | int rid =>
          rw [hdg] at h
          simp only at h
          by_cases hin : rid ∈ ids
          · rw [if_pos hin] at h
            have := ih (updateLabel t rid (decodeType kvs)) t2 h
            rw [this, updateLabel, List.map_map]
            apply List.map_congr_left
            intro r _
            exact rowAfter_step ids rest kvs rid hdg hin r
          · rw [if_neg hin] at h
            have := ih t t2 h
            rw [this]
            apply List.map_congr_left
            intro r _
            exact (rowAfter_cons_skip ids rest kvs
              (fun rid2 hid2 => by
                rw [hdg] at hid2
                cases hid2
                exact hin) r).symm
        | null =>
          rw [hdg] at h
          simp only at h
          rw [ih t t2 h]
          apply List.map_congr_left
          intro r _
          exact (rowAfter_cons_skip ids rest kvs
            (fun rid2 hid2 => by rw [hdg] at hid2; cases hid2) r).symm
        | bool b =>
          rw [hdg] at h
          simp only at h
          rw [ih t t2 h]
          apply List.map_congr_left
          intro r _
          exact (rowAfter_cons_skip ids rest kvs
            (fun rid2 hid2 => by rw [hdg] at hid2; cases hid2) r).symm
        | str s =>
          rw [hdg] at h
          simp only at h
          rw [ih t t2 h]
          apply List.map_congr_left
          intro r _
          exact (rowAfter_cons_skip ids rest kvs
            (fun rid2 hid2 => by rw [hdg] at hid2; cases hid2) r).symm
        | arr xs =>
          rw [hdg] at h
          simp only at h
          rw [ih t t2 h]
          apply List.map_congr_left
          intro r _
          exact (rowAfter_cons_skip ids rest kvs
            (fun rid2 hid2 => by rw [hdg] at hid2; cases hid2) r).symm
        | obj kvs2 =>
          rw [hdg] at h
          simp only at h
          rw [ih t t2 h]
          apply List.map_congr_left
          intro r _
          exact (rowAfter_cons_skip ids rest kvs
            (fun rid2 hid2 => by rw [hdg] at hid2; cases hid2) r).symm
      | none =>
        rw [hdg] at h
        simp only at h
        rw [ih t t2 h]
        apply List.map_congr_left
        intro r _
        exact (rowAfter_cons_skip ids rest kvs
          (fun rid2 hid2 => by rw [hdg] at hid2; cases hid2) r).symm
    | null => simp [applyResults, applyItem] at h
    | bool b => simp [applyResults, applyItem] at h
    | int n => simp [applyResults, applyItem] at h
    | str s => simp [applyResults, applyItem] at h
    | arr xs => simp [applyResults, applyItem] at h

theorem processBatchUpdate_arr (batch : List OccRow) (t : List OccRow)
    (kvs : List (String × Json)) (results : List Json)
    (hres : dictGet kvs "results" = some (Json.arr results)) :
    processBatchUpdate batch (some (Json.obj kvs)) t =
      applyResults (batch.map (fun r => r.id)) results t := by
  simp only [processBatchUpdate]
  rw [hres]

theorem processBatchUpdate_missing (batch : List OccRow) (t : List OccRow)
    (kvs : List (String × Json))
    (hres : dictGet kvs "results" = none) :
    processBatchUpdate batch (some (Json.obj kvs)) t = Except.ok t := by
  simp only [processBatchUpdate]
  rw [hres]
  rfl

theorem processBatchUpdate_nonlist (batch : List OccRow) (t : List OccRow)
    (kvs : List (String × Json)) (v : Json)
    (hres : dictGet kvs "results" = some v) (hv : ∀ xs, v ≠ Json.arr xs) :
    processBatchUpdate batch (some (Json.obj kvs)) t =
      Except.ok (markAllFailed (batch.map (fun r => r.id)) t) := by
  simp only [processBatchUpdate]
  rw [hres]
  cases v with
  | arr xs => exact absurd rfl (hv xs)
  | null => rfl
  | bool b => rfl
  | int n => rfl
  | str s => rfl
  | obj kvs2 => rfl

/-- A concrete unlabeled occurrence row, used for concrete instances of
the reconciliation theorems. -/
def exRow (i : Int) : OccRow :=
  { id := i, source_id := 10 + i, sentence := "三楼住着一百人",
    number_text := "三", number_start := 0, number_end := 1,
    number_type := none }

/-- C1 counterexample: a batch of three records whose response carries
valid types for records 1 and 2 and omits record 3.  The loop iterates
over the response entries, so record 3 is never updated: it stays
`NULL` (Unlabeled) instead of being marked `Failed = -1` as the claim
states, while the two present records do get their decoded labels. -/
theorem reconcile_missing_id_counterexample :
    processBatchUpdate [exRow 1, exRow 2, exRow 3]
      (some (Json.obj [("results", Json.arr
        [Json.obj [("id", Json.int 1), ("type", Json.int 0)],
         Json.obj [("id", Json.int 2), ("type", Json.int 1)]])]))
      [exRow 1, exRow 2, exRow 3] =
      Except.ok
        [{ exRow 1 with number_type := some 0 },
         { exRow 2 with number_type := some 1 }, exRow 3] ∧
    (exRow 3).number_type = none ∧ (exRow 3).number_type ≠ some (-1) := by
  refine ⟨rfl, rfl, by decide⟩

/-- C1 (amended): on a response parsed to a result list, the final
table is the pointwise `rowAfter` image: every batch record whose id
has a (last) matching entry is set to that entry's decoded type (the
decoded label when valid, `-1` when invalid), and a batch record whose
id is absent from the result list is left unchanged — still Unlabeled —
rather than marked Failed. -/
theorem reconcile_partial_success (batch : List OccRow)
    (kvs : List (String × Json)) (results : List Json) (t t2 : List OccRow)
    (hres : dictGet kvs "results" = some (Json.arr results))
    (h : processBatchUpdate batch (some (Json.obj kvs)) t = Except.ok t2) :
    t2 = t.map (rowAfter (batch.map (fun r => r.id)) results) ∧
    ∀ r : OccRow, r.id ∈ batch.map (fun r2 => r2.id) →
      (∀ kvs2, resultFor r.id results = some kvs2 →
        rowAfter (batch.map (fun r2 => r2.id)) results r =
          { r with number_type := some (decodeType kvs2) }) ∧
      (resultFor r.id results = none →
        rowAfter (batch.map (fun r2 => r2.id)) results r = r) := by
  rw [processBatchUpdate_arr batch t kvs results hres] at h
  refine ⟨applyResults_ok_eq _ results t t2 h, ?_⟩
  intro r hmem
  constructor
  · intro kvs2 hr2
    simp [rowAfter, hmem, hr2]
  · intro hr2
    simp [rowAfter, hmem, hr2]

/-- The concrete batch of three unlabeled records. -/
def cBatch : List OccRow := [exRow 1, exRow 2, exRow 3]

/-- The concrete response list carrying types for records 1 and 2
only. -/
def cResults : List Json :=
  [Json.obj [("id", Json.int 1), ("type", Json.int 0)],
   Json.obj [("id", Json.int 2), ("type", Json.int 1)]]

/-- The concrete response object `{"results": cResults}`. -/
def cKvs : List (String × Json) := [("results", Json.arr cResults)]

/-- The concrete table after reconciling `cResults` onto `cBatch`. -/
def cAfter : List OccRow :=
  [{ exRow 1 with number_type := some 0 },
   { exRow 2 with number_type := some 1 }, exRow 3]

/-- Witness for `reconcile_partial_success` at the concrete
three-record batch. -/
theorem reconcile_partial_success_witness :
    cAfter = cBatch.map (rowAfter (cBatch.map (fun r => r.id)) cResults) ∧
    rowAfter (cBatch.map (fun r2 => r2.id)) cResults (exRow 3) = exRow 3 := by
  have h := reconcile_partial_success cBatch cKvs cResults cBatch cAfter rfl rfl
  refine ⟨h.1, ?_⟩
  exact (h.2 (exRow 3) (by decide)).2 rfl

/-- C3 counterexample: a response whose top level is a dict without the
`"results"` key holds no list of results, yet `get("results", [])`
defaults to the empty list, which passes the `isinstance` check: the
batch is left untouched (still Unlabeled) instead of being marked
`Failed` like an `OracleError`. -/
theorem shape_failure_counterexample :
    processBatchUpdate [exRow 5] (some (Json.obj [])) [exRow 5] =
      Except.ok [exRow 5] ∧
    (exRow 5).number_type = none ∧
    processBatchUpdate [exRow 5] none [exRow 5] =
      Except.ok [{ exRow 5 with number_type := some (-1) }] := by
  refine ⟨rfl, rfl, rfl⟩

/-- C3 (amended): a response that is a dict whose `"results"` value is
present but not a list marks the whole batch `Failed`, with exactly the
same result as an oracle error (`none`); but a dict without the
`"results"` key defaults to the empty list and leaves the whole batch
untouched. -/
theorem shape_failure_amended (batch : List OccRow) (t : List OccRow) :
    (∀ kvs v, dictGet kvs "results" = some v → (∀ xs, v ≠ Json.arr xs) →
      processBatchUpdate batch (some (Json.obj kvs)) t =
        Except.ok (markAllFailed (batch.map (fun r => r.id)) t)) ∧
    processBatchUpdate batch none t =
      Except.ok (markAllFailed (batch.map (fun r => r.id)) t) ∧
    (∀ kvs, dictGet kvs "results" = none →
      processBatchUpdate batch (some (Json.obj kvs)) t = Except.ok t) := by
  refine ⟨?_, rfl, ?_⟩
  · intro kvs v hres hv
    exact processBatchUpdate_nonlist batch t kvs v hres hv
  · intro kvs hres
    exact processBatchUpdate_missing batch t kvs hres

/-- Witness for `shape_failure_amended` at a one-record batch with a
string-valued `"results"` field, an oracle error, and a missing
`"results"` key. -/
theorem shape_failure_amended_witness :
    processBatchUpdate [exRow 5] (some (Json.obj [("results", Json.str "x")]))
        [exRow 5] =
      Except.ok (markAllFailed ([exRow 5].map (fun r => r.id)) [exRow 5]) ∧
    processBatchUpdate [exRow 5] none [exRow 5] =
      Except.ok (markAllFailed ([exRow 5].map (fun r => r.id)) [exRow 5]) ∧
    processBatchUpdate [exRow 5] (some (Json.obj [("x", Json.int 0)]))
        [exRow 5] =
      Except.ok [exRow 5] := by
  have h := shape_failure_amended [exRow 5] [exRow 5]
  exact ⟨h.1 [("results", Json.str "x")] (Json.str "x") rfl
      (fun xs heq => Json.noConfusion heq),
    h.2.1, h.2.2 [("x", Json.int 0)] rfl⟩

theorem decodeType_cases (kvs : List (String × Json)) :
    decodeType kvs = 0 ∨ decodeType kvs = 1 ∨ decodeType kvs = 2 ∨
      decodeType kvs = -1 := by
  cases hp : pyInt (dictGet kvs "type") with
  | none =>
    have hd : decodeType kvs = -1 := by
      unfold decodeType
      rw [hp]
    simp [hd]
  | some n =>
    have hd : decodeType kvs = if n = 0 ∨ n = 1 ∨ n = 2 then n else -1 := by
      unfold decodeType
      rw [hp]
    by_cases h : n = 0 ∨ n = 1 ∨ n = 2
    · rw [hd, if_pos h]
      rcases h with h | h | h <;> simp [h]
    · rw [hd, if_neg h]
      simp

/-- C6: the decode step sends a missing, non-numeric, or out-of-range
`type` to `-1`; a record whose id has a matching entry is set according
to that entry alone (so one bad entry fails only its own record while
the other entries of the same response are still applied); and every
label the loop writes is in `{0, 1, 2, -1}` — any row with another
label kept its previous value. -/
theorem per_record_decode (ids : List Int) (results : List Json)
    (t t2 : List OccRow) (h : applyResults ids results t = Except.ok t2) :
    (∀ kvs, (pyInt (dictGet kvs "type") = none ∨
        ∃ n, pyInt (dictGet kvs "type") = some n ∧ ¬(n = 0 ∨ n = 1 ∨ n = 2)) →
      decodeType kvs = -1) ∧
    (∀ r ∈ t, r.id ∈ ids → ∀ kvs, resultFor r.id results = some kvs →
      { r with number_type := some (decodeType kvs) } ∈ t2) ∧
    (∀ r2 ∈ t2, (∃ r ∈ t, r2.number_type = r.number_type) ∨
      r2.number_type ∈ [some 0, some 1, some 2, some (-1)]) := by
  have hchar := applyResults_ok_eq ids results t t2 h
  refine ⟨?_, ?_, ?_⟩
  · intro kvs hbad
    unfold decodeType
    rcases hbad with hb | ⟨n, hn, hnot⟩
    · rw [hb]
    · rw [hn]
      simp only
      rw [if_neg hnot]
  · intro r hr hmem kvs hres
    rw [hchar]
    have heq : rowAfter ids results r =
        { r with number_type := some (decodeType kvs) } := by
      simp [rowAfter, hmem, hres]
    rw [← heq]
    exact List.mem_map_of_mem _ hr
  · intro r2 hr2
    rw [hchar] at hr2
    obtain ⟨r, hr, heq⟩ := List.mem_map.mp hr2
    by_cases hmem : r.id ∈ ids
    · cases hres : resultFor r.id results with
      | some kvs =>
        have hval : r2.number_type = some (decodeType kvs) := by
          rw [← heq]
          simp [rowAfter, hmem, hres]
        right
        rcases decodeType_cases kvs with h0 | h0 | h0 | h0 <;>
          simp [hval, h0]
      | none =>
        left
        exact ⟨r, hr, by rw [← heq]; simp [rowAfter, hmem, hres]⟩
    · left
      exact ⟨r, hr, by rw [← heq]; simp [rowAfter, hmem]⟩

/-- The concrete response list whose first entry has no `"type"` field
and whose second entry is valid. -/
def cBadResults : List Json :=
  [Json.obj [("id", Json.int 1)],
   Json.obj [("id", Json.int 2), ("type", Json.int 2)]]

/-- Witness for `per_record_decode`: the type-less entry decodes to
`-1` while the sibling record of the same response still receives its
decoded label. -/
theorem per_record_decode_witness :
    decodeType [("id", Json.int 1)] = -1 ∧
    { exRow 2 with number_type := some 2 } ∈
      [{ exRow 1 with number_type := some (-1) },
       { exRow 2 with number_type := some 2 }] := by
  have h := per_record_decode [1, 2] cBadResults [exRow 1, exRow 2]
    [{ exRow 1 with number_type := some (-1) },
     { exRow 2 with number_type := some 2 }] rfl
  refine ⟨h.1 [("id", Json.int 1)] (Or.inl rfl), ?_⟩
  exact h.2.1 (exRow 2) (by decide) (by decide)
    [("id", Json.int 2), ("type", Json.int 2)] rfl

theorem callLoop_not_ok (oracle : Nat → Except String Json) (fuel : Nat) :
    ∀ i last, (∀ j, j < fuel → ∀ v, oracle (i + j) ≠ Except.ok v) →
      ∀ v, (callLoop oracle fuel i last).1 ≠ Except.ok v := by
  induction fuel with
  | zero =>
    intro i last hfail v hcon
    rw [callLoop] at hcon
    exact Except.noConfusion hcon
  | succ fuel ih =>
    intro i last hfail v
    rw [callLoop]
    cases ho : oracle i with
    | ok w => exact absurd ho (hfail 0 (Nat.succ_pos _) w)
    | error e =>
      simp only
      exact ih (i + 1) (some e)
        (fun j hj w => by
          rw [show i + 1 + j = i + (j + 1) from by omega]
          exact hfail (j + 1) (by omega) w) v

theorem filter_map_id_preserving (f : OccRow → OccRow) (q : Int → Bool)
    (hid : ∀ r, (f r).id = r.id) (hfix : ∀ r, q r.id = true → f r = r) :
    ∀ t : List OccRow, (t.map f).filter (fun r => q r.id) =
      t.filter (fun r => q r.id) := by
  intro t
  induction t with
  | nil => rfl
  | cons r rest ih =>
    simp only [List.map_cons, List.filter_cons]
    rw [hid r]
    by_cases hq : q r.id = true
    · rw [if_pos hq, if_pos hq, hfix r hq, ih]
    · rw [if_neg hq, if_neg hq]
      exact ih

theorem rowAfter_id (ids : List Int) (results : List Json) (r : OccRow) :
    (rowAfter ids results r).id = r.id := by
  by_cases hmem : r.id ∈ ids
  · cases hres : resultFor r.id results with
    | some kvs => simp [rowAfter, hmem, hres]
    | none => simp [rowAfter, hmem, hres]
  · simp [rowAfter, hmem]

theorem markAllFailed_filter (ids : List Int) (t : List OccRow) :
    (markAllFailed ids t).filter (fun r => !(ids.contains r.id)) =
      t.filter (fun r => !(ids.contains r.id)) := by
  rw [markAllFailed_eq_map]
  refine filter_map_id_preserving _ (fun i => !(ids.contains i)) ?_ ?_ t
  · intro r
    by_cases hm : r.id ∈ ids <;> simp [hm]
  · intro r hq
    have hnm : r.id ∉ ids := by simpa using hq
    simp [hnm]

theorem applyResults_filter (ids : List Int) (results : List Json)
    (t t2 : List OccRow) (h : applyResults ids results t = Except.ok t2) :
    t2.filter (fun r => !(ids.contains r.id)) =
      t.filter (fun r => !(ids.contains r.id)) := by
  rw [applyResults_ok_eq ids results t t2 h]
  refine filter_map_id_preserving _ (fun i => !(ids.contains i)) ?_ ?_ t
  · exact rowAfter_id ids results
  · intro r hq
    have hnm : r.id ∉ ids := by simpa using hq
    simp [rowAfter, hnm]

theorem processBatchUpdate_frame (batch : List OccRow) (api : Option Json)
    (t t2 : List OccRow)
    (h : processBatchUpdate batch api t = Except.ok t2) :
    t2.filter (fun r => !((batch.map (fun r2 => r2.id)).contains r.id)) =
      t.filter (fun r => !((batch.map (fun r2 => r2.id)).contains r.id)) := by
  cases api with
  | none =>
    simp only [processBatchUpdate] at h
    cases h
    exact markAllFailed_filter _ t
  | some j =>
    cases j with
    | obj kvs =>
      cases hres : dictGet kvs "results" with
      | none =>
        rw [processBatchUpdate_missing batch t kvs hres] at h
        cases h
        rfl
      | some v =>
        cases v with
        | arr results =>
          rw [processBatchUpdate_arr batch t kvs results hres] at h
          exact applyResults_filter _ results t t2 h
        | null =>
          rw [processBatchUpdate_nonlist batch t kvs _ hres
            (fun xs heq => Json.noConfusion heq)] at h
          cases h
          exact markAllFailed_filter _ t
        | bool b =>
          rw [processBatchUpdate_nonlist batch t kvs _ hres
            (fun xs heq => Json.noConfusion heq)] at h
          cases h
          exact markAllFailed_filter _ t
        | int n =>
          rw [processBatchUpdate_nonlist batch t kvs _ hres
            (fun xs heq => Json.noConfusion heq)] at h
          cases h
          exact markAllFailed_filter _ t
        | str s =>
          rw [processBatchUpdate_nonlist batch t kvs _ hres
            (fun xs heq => Json.noConfusion heq)] at h
          cases h
          exact markAllFailed_filter _ t
        | obj kvs2 =>
          rw [processBatchUpdate_nonlist batch t kvs _ hres
            (fun xs heq => Json.noConfusion heq)] at h
          cases h
          exact markAllFailed_filter _ t
    | null =>
      simp only [processBatchUpdate] at h
      exact Except.noConfusion h
    | bool b =>
      simp only [processBatchUpdate] at h
      exact Except.noConfusion h
    | int n =>
      simp only [processBatchUpdate] at h
      exact Except.noConfusion h
    | str s =>
      simp only [processBatchUpdate] at h
      exact Except.noConfusion h
    | arr xs =>
      simp only [processBatchUpdate] at h
      exact Except.noConfusion h

theorem markAllFailed_mem_batch (ids : List Int) (t : List OccRow) :
    ∀ r ∈ markAllFailed ids t, r.id ∈ ids → r.number_type = some (-1) := by
  intro r hr hmem
  rw [markAllFailed_eq_map] at hr
  obtain ⟨r0, hr0, heq⟩ := List.mem_map.mp hr
  by_cases hm : r0.id ∈ ids
  · rw [← heq, if_pos hm]
  · rw [← heq, if_neg hm] at hmem
    exact absurd hmem hm

/-- C7: when every attempt of the oracle call for a batch raises (for
example a connection error each time), the API task reports `none`, the
reconciler then marks every record of the batch `Failed = -1`, and any
batch's update — this failing one included — leaves every row outside
its own batch untouched, so no other batch's outcome is affected. -/
theorem whole_batch_failure (oracle : Nat → Except String Json)
    (retry : Nat) (batch : List OccRow) (t : List OccRow)
    (h1 : 1 ≤ retry)
    (hfail : ∀ j, j < retry → ∃ e, oracle j = Except.error e) :
    process_batch_api_task oracle retry batch = (batch, none) ∧
    processBatchUpdate batch none t =
      Except.ok (markAllFailed (batch.map (fun r => r.id)) t) ∧
    (∀ r ∈ markAllFailed (batch.map (fun r => r.id)) t,
      r.id ∈ batch.map (fun r => r.id) → r.number_type = some (-1)) ∧
    (∀ api t2, processBatchUpdate batch api t = Except.ok t2 →
      t2.filter (fun r => !((batch.map (fun r2 => r2.id)).contains r.id)) =
        t.filter (fun r => !((batch.map (fun r2 => r2.id)).contains r.id))) := by
  refine ⟨?_, rfl, markAllFailed_mem_batch _ t,
    fun api t2 h => processBatchUpdate_frame batch api t t2 h⟩
  have hno := callLoop_not_ok oracle retry 0 none
    (fun j hj v => by
      obtain ⟨e, he⟩ := hfail j hj
      rw [show (0 : Nat) + j = j from by omega, he]
      exact fun hcon => Except.noConfusion hcon)
  simp only [process_batch_api_task]
  cases hc : (call_gemini_json oracle retry).1 with
  | ok v => exact absurd hc (hno v)
  | error e => rfl

/-- Witness for `whole_batch_failure`: a two-attempt client whose
connection fails both times, over the three-record batch. -/
theorem whole_batch_failure_witness :
    process_batch_api_task oracleDown 2 cBatch = (cBatch, none) ∧
    processBatchUpdate cBatch none cBatch =
      Except.ok (markAllFailed (cBatch.map (fun r => r.id)) cBatch) := by
  have h := whole_batch_failure oracleDown 2 cBatch cBatch (by omega)
    (fun j hj => ⟨"connection error", rfl⟩)
  exact ⟨h.1, h.2.1⟩

/-- The effective result list of a response dict:
`api_result.get("results", [])` when it passes the
`isinstance(results, list)` check, the empty default otherwise. -/
def resultsOf (kvs : List (String × Json)) : List Json :=
  match dictGet kvs "results" with
  | some (Json.arr rs) => rs
  | _ => []

/-- C2 counterexample: a store with one Unlabeled occurrence; the run
batches it, the oracle answers with the well-formed empty result list
`{"results": []}`, the run completes — and the batched occurrence still
has `number_type = NULL`, i.e. it remains Unlabeled. -/
theorem coverage_counterexample :
    fetch_rows_to_label [exRow 1] = [exRow 1] ∧
    makeBatches (fetch_rows_to_label [exRow 1]) 20 = [[exRow 1]] ∧
    runBatches [exRow 1]
      ((makeBatches (fetch_rows_to_label [exRow 1]) 20).map
        (fun b => (b, some (Json.obj [("results", Json.arr [])])))) =
      [exRow 1] ∧
    (exRow 1).number_type = none := by
  have hf : fetch_rows_to_label [exRow 1] = [exRow 1] := by
    unfold fetch_rows_to_label
    rw [show ([exRow 1].filter (fun r => r.number_type.isNone)) = [exRow 1]
      from rfl]
    exact List.mergeSort_singleton _
  have hb : makeBatches (fetch_rows_to_label [exRow 1]) 20 = [[exRow 1]] := by
    rw [hf, makeBatches_cons _ _ _ (by omega)]
    simp [makeBatches_nil]
  refine ⟨hf, hb, ?_, rfl⟩
  rw [hb]
  rfl

theorem labelSet_map_preserve (f : OccRow → OccRow)
    (hf : ∀ r : OccRow, (f r).number_type = r.number_type ∨
      (f r).number_type ∈ [some 0, some 1, some 2, some (-1)])
    (t : List OccRow)
    (hinv : ∀ r ∈ t,
      r.number_type ∈ [none, some 0, some 1, some 2, some (-1)]) :
    ∀ r ∈ t.map f,
      r.number_type ∈ [none, some 0, some 1, some 2, some (-1)] := by
  intro r hr
  obtain ⟨r0, hr0, heq⟩ := List.mem_map.mp hr
  rcases hf r0 with h | h
  · rw [← heq, h]
    exact hinv r0 hr0
  · rw [← heq]
    exact List.mem_cons_of_mem none h

theorem markAllFailed_preserve (ids : List Int) (t : List OccRow)
    (hinv : ∀ r ∈ t,
      r.number_type ∈ [none, some 0, some 1, some 2, some (-1)]) :
    ∀ r ∈ markAllFailed ids t,
      r.number_type ∈ [none, some 0, some 1, some 2, some (-1)] := by
  rw [markAllFailed_eq_map]
  refine labelSet_map_preserve _ ?_ t hinv
  intro r
  by_cases h : r.id ∈ ids <;> simp [h]

theorem rowAfter_preserve (ids : List Int) (results : List Json)
    (t : List OccRow)
    (hinv : ∀ r ∈ t,
      r.number_type ∈ [none, some 0, some 1, some 2, some (-1)]) :
    ∀ r ∈ t.map (rowAfter ids results),
      r.number_type ∈ [none, some 0, some 1, some 2, some (-1)] := by
  refine labelSet_map_preserve _ ?_ t hinv
  intro r
  by_cases hmem : r.id ∈ ids
  · cases hres : resultFor r.id results with
    | some kvs =>
      right
      have hval : (rowAfter ids results r).number_type =
          some (decodeType kvs) := by
        simp [rowAfter, hmem, hres]
      rcases decodeType_cases kvs with h0 | h0 | h0 | h0 <;>
        simp [hval, h0]
    | none =>
      left
      simp [rowAfter, hmem, hres]
  · left
    simp [rowAfter, hmem]

theorem processBatchUpdate_preserve (b : List OccRow) (api : Option Json)
    (t t2 : List OccRow) (h : processBatchUpdate b api t = Except.ok t2)
    (hinv : ∀ r ∈ t,
      r.number_type ∈ [none, some 0, some 1, some 2, some (-1)]) :
    ∀ r ∈ t2,
      r.number_type ∈ [none, some 0, some 1, some 2, some (-1)] := by
  cases api with
  | none =>
    simp only [processBatchUpdate] at h
    cases h
    exact markAllFailed_preserve _ t hinv
  | some j =>
    cases j with
    | obj kvs =>
      cases hres : dictGet kvs "results" with
      | none =>
        rw [processBatchUpdate_missing b t kvs hres] at h
        cases h
        exact hinv
      | some v =>
        cases v with
        | arr results =>
          rw [processBatchUpdate_arr b t kvs results hres] at h
          rw [applyResults_ok_eq _ results t t2 h]
          exact rowAfter_preserve _ results t hinv
        | null =>
          rw [processBatchUpdate_nonlist b t kvs _ hres
            (fun xs heq => Json.noConfusion heq)] at h
          cases h
          exact markAllFailed_preserve _ t hinv
        | bool b2 =>
          rw [processBatchUpdate_nonlist b t kvs _ hres
            (fun xs heq => Json.noConfusion heq)] at h
          cases h
          exact markAllFailed_preserve _ t hinv
        | int n =>
          rw [processBatchUpdate_nonlist b t kvs _ hres
            (fun xs heq => Json.noConfusion heq)] at h
          cases h
          exact markAllFailed_preserve _ t hinv
        | str s =>
          rw [processBatchUpdate_nonlist b t kvs _ hres
            (fun xs heq => Json.noConfusion heq)] at h
          cases h
          exact markAllFailed_preserve _ t hinv
        | obj kvs2 =>
          rw [processBatchUpdate_nonlist b t kvs _ hres
            (fun xs heq => Json.noConfusion heq)] at h
          cases h
          exact markAllFailed_preserve _ t hinv
    | null =>
      simp only [processBatchUpdate] at h
      exact Except.noConfusion h
    | bool b2 =>
      simp only [processBatchUpdate] at h
      exact Except.noConfusion h
    | int n =>
      simp only [processBatchUpdate] at h
      exact Except.noConfusion h
    | str s =>
      simp only [processBatchUpdate] at h
      exact Except.noConfusion h
    | arr xs =>
      simp only [processBatchUpdate] at h
      exact Except.noConfusion h

theorem runBatches_preserve (jobs : List (List OccRow × Option Json)) :
    ∀ t : List OccRow,
      (∀ r ∈ t, r.number_type ∈ [none, some 0, some 1, some 2, some (-1)]) →
      ∀ r ∈ runBatches t jobs,
        r.number_type ∈ [none, some 0, some 1, some 2, some (-1)] := by
  induction jobs with
  | nil => exact fun t hinv => hinv
  | cons job rest ih =>
    intro t hinv
    obtain ⟨b, api⟩ := job
    simp only [runBatches]
    cases hp : processBatchUpdate b api t with
    | ok t2 => exact ih t2 (processBatchUpdate_preserve b api t t2 hp hinv)
    | error e => exact hinv

/-- C2 (amended): starting from a store whose labels are all in
`{NULL, 0, 1, 2, -1}`, every label after a run is still in that set —
every label the run writes is terminal — but a batched record may end
the run still Unlabeled: after a successful batch update this happens
exactly when the response was a dict whose effective result list omits
the record's id (such records are re-fetched by the next run). -/
theorem coverage_amended (t : List OccRow)
    (jobs : List (List OccRow × Option Json))
    (hinv : ∀ r ∈ t,
      r.number_type ∈ [none, some 0, some 1, some 2, some (-1)]) :
    (∀ r ∈ runBatches t jobs,
      r.number_type ∈ [none, some 0, some 1, some 2, some (-1)]) ∧
    (∀ b api t2, processBatchUpdate b api t = Except.ok t2 →
      ∀ r ∈ t2, r.id ∈ b.map (fun r2 => r2.id) → r.number_type = none →
        ∃ kvs, api = some (Json.obj kvs) ∧
          resultFor r.id (resultsOf kvs) = none) := by
  refine ⟨runBatches_preserve jobs t hinv, ?_⟩
  intro b api t2 h r hr hmem hnone
  cases api with
  | none =>
    simp only [processBatchUpdate] at h
    cases h
    have := markAllFailed_mem_batch _ t r hr hmem
    rw [this] at hnone
    exact Option.noConfusion hnone
  | some j =>
    cases j with
    | obj kvs =>
      refine ⟨kvs, rfl, ?_⟩
      cases hres : dictGet kvs "results" with
      | none =>
        rw [processBatchUpdate_missing b t kvs hres] at h
        cases h
        simp only [resultsOf]
        rw [hres]
        rfl
      | some v =>
        cases v with
        | arr results =>
          rw [processBatchUpdate_arr b t kvs results hres] at h
          rw [applyResults_ok_eq _ results t t2 h] at hr
          obtain ⟨r0, hr0, heq⟩ := List.mem_map.mp hr
          have hid : r.id = r0.id := by
            rw [← heq]
            exact rowAfter_id _ results r0
          have hmem0 : r0.id ∈ b.map (fun r2 => r2.id) := hid ▸ hmem
          have hrs : resultsOf kvs = results := by
            simp only [resultsOf]
            rw [hres]
          rw [hrs, hid]
          cases hresF : resultFor r0.id results with
          | some kvs2 =>
            have : r.number_type = some (decodeType kvs2) := by
              rw [← heq]
              simp [rowAfter, hmem0, hresF]
            rw [this] at hnone
            exact Option.noConfusion hnone
          | none => rfl
        | null =>
          rw [processBatchUpdate_nonlist b t kvs _ hres
            (fun xs heq => Json.noConfusion heq)] at h
          cases h
          have := markAllFailed_mem_batch _ t r hr hmem
          rw [this] at hnone
          exact Option.noConfusion hnone
        | bool b2 =>
          rw [processBatchUpdate_nonlist b t kvs _ hres
            (fun xs heq => Json.noConfusion heq)] at h
          cases h
          have := markAllFailed_mem_batch _ t r hr hmem
          rw [this] at hnone
          exact Option.noConfusion hnone
        | int n =>
          rw [processBatchUpdate_nonlist b t kvs _ hres
            (fun xs heq => Json.noConfusion heq)] at h
          cases h
          have := markAllFailed_mem_batch _ t r hr hmem
          rw [this] at hnone
          exact Option.noConfusion hnone
        | str s =>
          rw [processBatchUpdate_nonlist b t kvs _ hres
            (fun xs heq => Json.noConfusion heq)] at h
          cases h
          have := markAllFailed_mem_batch _ t r hr hmem
          rw [this] at hnone
          exact Option.noConfusion hnone
        | obj kvs2 =>
          rw [processBatchUpdate_nonlist b t kvs _ hres
            (fun xs heq => Json.noConfusion heq)] at h
          cases h
          have := markAllFailed_mem_batch _ t r hr hmem
          rw [this] at hnone
          exact Option.noConfusion hnone
    | null =>
      simp only [processBatchUpdate] at h
      exact Except.noConfusion h
    | bool b2 =>
      simp only [processBatchUpdate] at h
      exact Except.noConfusion h
    | int n =>
      simp only [processBatchUpdate] at h
      exact Except.noConfusion h
    | str s =>
      simp only [processBatchUpdate] at h
      exact Except.noConfusion h
    | arr xs =>
      simp only [processBatchUpdate] at h
      exact Except.noConfusion h

/-- Witness for `coverage_amended`: the one-row store run against the
empty result list keeps its row, whose label set stays in range. -/
theorem coverage_amended_witness :
    (exRow 1).number_type ∈ [none, some 0, some 1, some 2, some (-1)] := by
  have h := (coverage_amended [exRow 1]
    [([exRow 1], some (Json.obj [("results", Json.arr [])]))]
    (by decide)).1
  exact h (exRow 1) (by decide)

/-- A row of the source sentence table `new_num_sentences`
(src/Searching4Nums_Store.py:44-51): serial id and sentence content. -/
structure SrcRow where
  id : Int
  content : String
deriving Repr, DecidableEq

/-- An occurrence record as inserted by `extract_and_insert_numbers`
(src/mark_with_ai_and_position.py:153-165): the five explicit columns
of the INSERT; `id` is assigned by the `BIGSERIAL` column and
`number_type` starts NULL. -/
structure PendingOcc where
  source_id : Int
  sentence : String
  number_text : String
  number_start : Nat
  number_stop : Nat
deriving Repr, DecidableEq

/-- The per-sentence extraction of `extract_and_insert_numbers`
(src/mark_with_ai_and_position.py:145-165): one pending record per
numeral match of the sentence. -/
def occurrencesOf (s : SrcRow) : List PendingOcc :=
  (extract_chinese_numbers s.content).map (fun m =>
    { source_id := s.id, sentence := s.content,
      number_text := String.mk m.text, number_start := m.start,
      number_stop := m.stop })

/-- Embeds `extract_and_insert_numbers` (src/mark_with_ai_and_position.py:127-172):
select the sentences whose content does not contain `第`
(`WHERE content NOT LIKE '%第%'`), extract every numeral of each, and
insert one row per numeral into the empty occurrence table;
`id` is assigned by the `BIGSERIAL` column as 1, 2, … in insertion
order and `number_type` defaults to NULL. -/
def extract_and_insert_numbers (sents : List SrcRow) : List OccRow :=
  let pend := (sents.filter
    (fun s => !(s.content.data.contains '第'))).flatMap occurrencesOf
  ((List.range pend.length).zip pend).map (fun p =>
    { id := (p.1 : Int) + 1, source_id := p.2.source_id,
      sentence := p.2.sentence, number_text := p.2.number_text,
      number_start := p.2.number_start, number_end := p.2.number_stop,
      number_type := none })

/-- The count-guarded extraction step of `process_all`
(src/mark_with_ai_and_position.py:260-268): `SELECT COUNT(*)` on the
occurrence table; extract and insert only when the count is zero,
otherwise skip. -/
def extractionStep (store : List OccRow) (sents : List SrcRow) : List OccRow :=
  if store.length = 0 then extract_and_insert_numbers sents else store

/-- C9: running the extraction-and-insert step against a store whose
occurrence table already has a non-zero row count is a no-op (the skip
decided by the row-count check), and running the step twice always
equals running it once — extraction never duplicates rows. -/
theorem extraction_idempotent (store : List OccRow) (sents : List SrcRow) :
    (store.length ≠ 0 → extractionStep store sents = store) ∧
    extractionStep (extractionStep store sents) sents =
      extractionStep store sents := by
  constructor
  · intro h
    simp [extractionStep, h]
  · by_cases h : store.length = 0
    · simp only [extractionStep, if_pos h]
      by_cases h2 : (extract_and_insert_numbers sents).length = 0
      · rw [if_pos h2]
      · rw [if_neg h2]
    · simp [extractionStep, h]

/-- Witness for `extraction_idempotent` at a one-row store. -/
theorem extraction_idempotent_witness :
    extractionStep [exRow 1] [] = [exRow 1] ∧
    extractionStep (extractionStep [exRow 1] []) [] =
      extractionStep [exRow 1] [] := by
  have h := extraction_idempotent [exRow 1] []
  exact ⟨h.1 (by decide), h.2⟩

/-- C10: every inserted occurrence row comes from a stored sentence
whose text does not contain `第`, and sentences containing `第` can be
dropped from the input without changing the inserted rows at all — they
contribute nothing. -/
theorem di_exclusion (sents : List SrcRow) :
    (∀ r ∈ extract_and_insert_numbers sents,
      r.sentence.data.contains '第' = false) ∧
    extract_and_insert_numbers sents =
      extract_and_insert_numbers
        (sents.filter (fun s => !(s.content.data.contains '第'))) := by
  constructor
  · intro r hr
    simp only [extract_and_insert_numbers] at hr
    obtain ⟨p, hp, heq⟩ := List.mem_map.mp hr
    have hp2 := (List.of_mem_zip hp).2
    obtain ⟨s, hs, hps⟩ := List.mem_flatMap.mp hp2
    have hsent : p.2.sentence = s.content := by
      obtain ⟨m, _, hm⟩ := List.mem_map.mp hps
      rw [← hm]
    have hfil := (List.mem_filter.mp hs).2
    have hcontent : s.content.data.contains '第' = false := by
      simpa using hfil
    rw [← heq]
    simp only
    rw [hsent]
    exact hcontent
  · simp only [extract_and_insert_numbers]
    rw [List.filter_filter]
    have hfe : (fun s : SrcRow =>
        !(s.content.data.contains '第') && !(s.content.data.contains '第')) =
        (fun s : SrcRow => !(s.content.data.contains '第')) := by
      funext s
      exact Bool.and_self _
    rw [hfe]

/-- Witness for `di_exclusion`: a sentence containing `第` alongside
one without it produces the same rows as the `第`-free input alone. -/
theorem di_exclusion_witness :
    extract_and_insert_numbers [⟨1, "第三"⟩, ⟨2, "三楼"⟩] =
      extract_and_insert_numbers
        (([⟨1, "第三"⟩, ⟨2, "三楼"⟩] : List SrcRow).filter
          (fun s => !(s.content.data.contains '第'))) :=
  (di_exclusion [⟨1, "第三"⟩, ⟨2, "三楼"⟩]).2

end SRTP
